import Mathlib

/-!
Verification development for the Tetrus game engine.

Shallow embedding of `src/tetrus/tetromino.py`, `src/tetrus/board.py` and
`src/tetrus/game.py`.  Python `int` becomes `Int` (or `Nat` for quantities
that are nonnegative by construction, such as the score counters), the
playfield grid becomes a `List (List (Option String))`, exceptions become
explicit `Option Outcome` results carried next to the mutated state, and
the `random.Random` source of the seven-bag generator is abstracted as the
shuffled list it produces.
-/

namespace Tetrus

/-- The seven tetromino kinds, in the insertion order of the Python
`TETROMINO_SHAPES` dict: I, J, L, O, S, T, Z. -/
inductive Kind where
  | I | J | L | O | S | T | Z
deriving DecidableEq, Fintype

/-- The rotation-state tables of `TETROMINO_SHAPES`: for each kind, the
list of its four rotation states, each a list of relative (x, y) cell
offsets, transcribed verbatim from `tetromino.py`. -/
def shapesList (k : Kind) : List (List (Int × Int)) :=
  match k with
  | .I => [[(0, 0), (1, 0), (2, 0), (3, 0)],
           [(0, 0), (0, 1), (0, 2), (0, 3)],
           [(0, 0), (1, 0), (2, 0), (3, 0)],
           [(0, 0), (0, 1), (0, 2), (0, 3)]]
  | .J => [[(0, 0), (0, 1), (1, 1), (2, 1)],
           [(0, 0), (1, 0), (0, 1), (0, 2)],
           [(0, 0), (1, 0), (2, 0), (2, 1)],
           [(1, 0), (1, 1), (0, 2), (1, 2)]]
  | .L => [[(2, 0), (0, 1), (1, 1), (2, 1)],
           [(0, 0), (0, 1), (0, 2), (1, 2)],
           [(0, 0), (1, 0), (2, 0), (0, 1)],
           [(0, 0), (1, 0), (1, 1), (1, 2)]]
  | .O => [[(0, 0), (1, 0), (0, 1), (1, 1)],
           [(0, 0), (1, 0), (0, 1), (1, 1)],
           [(0, 0), (1, 0), (0, 1), (1, 1)],
           [(0, 0), (1, 0), (0, 1), (1, 1)]]
  | .S => [[(1, 0), (2, 0), (0, 1), (1, 1)],
           [(0, 0), (0, 1), (1, 1), (1, 2)],
           [(1, 0), (2, 0), (0, 1), (1, 1)],
           [(0, 0), (0, 1), (1, 1), (1, 2)]]
  | .T => [[(1, 0), (0, 1), (1, 1), (2, 1)],
           [(0, 0), (0, 1), (1, 1), (0, 2)],
           [(0, 0), (1, 0), (2, 0), (1, 1)],
           [(1, 0), (0, 1), (1, 1), (1, 2)]]
  | .Z => [[(0, 0), (1, 0), (1, 1), (2, 1)],
           [(1, 0), (0, 1), (1, 1), (0, 2)],
           [(0, 0), (1, 0), (1, 1), (2, 1)],
           [(1, 0), (0, 1), (1, 1), (0, 2)]]

/-- Models `ALL_TETROMINO_TYPES = tuple(TETROMINO_SHAPES.keys())`. -/
def ALL_TETROMINO_TYPES : List Kind := [.I, .J, .L, .O, .S, .T, .Z]

/-- Every kind has exactly four rotation states (matching
`len(TETROMINO_SHAPES[kind])` in the Python source). -/
theorem rotationCount (k : Kind) : (shapesList k).length = 4 := by
  cases k <;> rfl

/-- The rotation offsets for a kind at a rotation index.  Rotation indices
are kept in `Fin 4` since every piece the program constructs has its index
reduced modulo the rotation-state count (see `Tetromino.rotated` and
`spawn_tetromino`); Python would raise `IndexError` outside that range. -/
def offs (k : Kind) (r : Fin 4) : List (Int × Int) :=
  (shapesList k).getD r.val []

/-- Models `Tetromino` dataclass: a kind, rotation index and origin. -/
structure Tetromino where
  kind : Kind
  rotation : Fin 4
  x : Int
  y : Int
deriving DecidableEq

/-- Models `Tetromino.cells`: absolute board coordinates for each block. -/
def Tetromino.cells (p : Tetromino) : List (Int × Int) :=
  (offs p.kind p.rotation).map (fun o => (p.x + o.1, p.y + o.2))

/-- Models `Tetromino.moved(dx, dy)`. -/
def Tetromino.moved (p : Tetromino) (dx dy : Int) : Tetromino :=
  { p with x := p.x + dx, y := p.y + dy }

/-- Advance a rotation index by `delta` modulo 4, as Python's
`(self.rotation + delta) % rotation_count` (with `rotation_count = 4`,
see `rotationCount`; Lean's `%` on `Int` agrees with Python's for a
positive modulus). -/
def rotIndexStep (r : Fin 4) (delta : Int) : Fin 4 :=
  ⟨(((r.val : Int) + delta) % 4).toNat, by omega⟩

/-- Models `Tetromino.rotated(clockwise)`. -/
def Tetromino.rotated (p : Tetromino) (clockwise : Bool := true) : Tetromino :=
  { p with rotation := rotIndexStep p.rotation (if clockwise then 1 else -1) }

/-- Python `min` over a nonempty list of ints (`0` default is never used by
callers, which always pass nonempty offset lists). -/
def listMinD (l : List Int) : Int :=
  match l with
  | [] => 0
  | a :: t => t.foldl min a

/-- Python `max` over a nonempty list of ints. -/
def listMaxD (l : List Int) : Int :=
  match l with
  | [] => 0
  | a :: t => t.foldl max a

/-- Models `spawn_tetromino(kind, board_width)`: rotation 0, `y = 0`, horizontally
centered from the rotation-0 bounding box with floor division. -/
def spawn_tetromino (kind : Kind) (board_width : Int) : Tetromino :=
  let offsets := (shapesList kind).getD 0 []
  let min_x := listMinD (offsets.map Prod.fst)
  let max_x := listMaxD (offsets.map Prod.fst)
  let piece_width := max_x - min_x + 1
  { kind := kind, rotation := 0, x := (board_width - piece_width) / 2 - min_x, y := 0 }

/-- Models `TETROMINO_GLYPH` from `constants.py`. -/
def TETROMINO_GLYPH : String := "[]"

/-- A playfield cell: `None` or the glyph of the piece locked there. -/
abbrev Cell := Option String

/-- Models `_empty_row(width)`. -/
def emptyRow (width : Nat) : List Cell := List.replicate width none

/-- The `Board` class fields: the grid rows are listed top to bottom,
`total_height = visible_height + hidden_rows` is derived. -/
structure Board where
  width : Nat
  visibleHeight : Nat
  hiddenRows : Nat
  grid : List (List Cell)

/-- Models `self.total_height = height + hidden_rows`. -/
def Board.totalHeight (b : Board) : Nat := b.visibleHeight + b.hiddenRows

/-- Models `Board.__init__`: an all-empty grid of `total_height` rows. -/
def Board.init (width height hidden_rows : Nat) : Board :=
  { width := width, visibleHeight := height, hiddenRows := hidden_rows,
    grid := List.replicate (height + hidden_rows) (emptyRow width) }

/-- Models `Board.is_inside(x, y)`. -/
def Board.is_inside (b : Board) (x y : Int) : Bool :=
  decide (0 ≤ x) && decide (x < (b.width : Int)) &&
    decide (0 ≤ y) && decide (y < (b.totalHeight : Int))

/-- Models `Board.cell(x, y)`: the stored cell, or `none` when out of bounds. -/
def Board.cell (b : Board) (x y : Int) : Cell :=
  if b.is_inside x y then (b.grid.getD y.toNat []).getD x.toNat none else none

/-- Models `Board._line_full(row)`. -/
def line_full (row : List Cell) : Bool := row.all (fun c => c.isSome)

/-- Models `Board.can_place(piece)`: every cell is in bounds and free.  (The grid
lookup through `getD` coincides with Python's direct indexing whenever the
grid has its invariant shape; Python would raise on a malformed grid.) -/
def Board.can_place (b : Board) (p : Tetromino) : Bool :=
  p.cells.all (fun c =>
    b.is_inside c.1 c.2 && ((b.grid.getD c.2.toNat []).getD c.1.toNat none).isNone)

/-- Models `self._grid[y][x] = glyph` for in-bounds coordinates. -/
def Board.writeCell (b : Board) (x y : Int) (glyph : String) : Board :=
  { b with grid := b.grid.set y.toNat ((b.grid.getD y.toNat []).set x.toNat (some glyph)) }

/-- The loop body of `Board.lock_piece`: write each cell in order; on the
first out-of-bounds cell stop with the `ValueError` message (the cells
already visited stay written, as in Python, where the mutation precedes
the raise). -/
def lockCellsGo (glyph : String) : Board → List (Int × Int) → Board × Option String
  | b, [] => (b, none)
  | b, c :: rest =>
    if b.is_inside c.1 c.2 then lockCellsGo glyph (b.writeCell c.1 c.2 glyph) rest
    else (b, some ("Cannot lock piece outside board bounds."))

/-- Models `Board.lock_piece(piece, glyph=TETROMINO_GLYPH)`: the resulting board
together with the raised `ValueError` message, if any. -/
def Board.lock_piece (b : Board) (p : Tetromino) (glyph : String := TETROMINO_GLYPH) :
    Board × Option String :=
  lockCellsGo glyph b p.cells

/-- Models `LineClearResult` dataclass. -/
structure LineClearResult where
  cleared : Nat
  score_gain : Nat
deriving DecidableEq

/-- Python's `lst[-n:]` slice (note `lst[-0:]` is the whole list). -/
def pySliceLast (n : Nat) (l : List (List Cell)) : List (List Cell) :=
  if n = 0 then l else l.drop (l.length - n)

/-- Models `Board.clear_completed_lines()`: drop every full row, prepend that many
empty rows, keep the last `total_height` rows, and compute the fixed score
table 1 to 40, 2 to 100, 3 to 300, 4 or more to 1200. -/
def Board.clear_completed_lines (b : Board) : Board × LineClearResult :=
  let cleared := b.grid.countP (fun row => line_full row)
  let kept := b.grid.filter (fun row => !line_full row)
  let new_grid := List.replicate cleared (emptyRow b.width) ++ kept
  let grid2 := pySliceLast b.totalHeight new_grid
  let score_gain :=
    if cleared = 1 then 40
    else if cleared = 2 then 100
    else if cleared = 3 then 300
    else if 4 ≤ cleared then 1200
    else 0
  ({ b with grid := grid2 }, { cleared := cleared, score_gain := score_gain })

/-- Every offset list is nonempty. -/
theorem offs_ne_nil : ∀ (k : Kind) (r : Fin 4), offs k r ≠ [] := by decide

/-- Every offset has a nonnegative y component. -/
theorem offs_y_nonneg : ∀ (k : Kind) (r : Fin 4), ∀ o ∈ offs k r, 0 ≤ o.2 := by decide

/-- The `while True` loop of `Board.drop_distance` stops: far enough down,
some cell of the piece leaves the bottom of the grid. -/
theorem drop_stops (b : Board) (p : Tetromino) :
    ∃ d : Nat, ¬(b.can_place (p.moved 0 ((d : Int) + 1)) = true) := by
  refine ⟨((b.totalHeight : Int) - p.y).toNat, fun hcp => ?_⟩
  obtain ⟨o, ho⟩ := List.exists_mem_of_ne_nil _ (offs_ne_nil p.kind p.rotation)
  rw [Board.can_place, List.all_eq_true] at hcp
  have hmem : (p.x + 0 + o.1, p.y + (((b.totalHeight : Int) - p.y).toNat + 1) + o.2) ∈
      (p.moved 0 (((b.totalHeight : Int) - p.y).toNat + 1)).cells := by
    exact List.mem_map.mpr ⟨o, ho, rfl⟩
  have hc := hcp _ hmem
  simp only [Board.is_inside, Bool.and_eq_true, decide_eq_true_eq] at hc
  have hy := hc.1.2
  have hoy := offs_y_nonneg p.kind p.rotation o ho
  have hself : (b.totalHeight : Int) - p.y ≤ (((b.totalHeight : Int) - p.y).toNat : Int) :=
    Int.self_le_toNat _
  omega

/-- Models `Board.drop_distance(piece)`: the loop returns the least `d` such that
the piece moved down `d + 1` rows no longer fits. -/
def Board.drop_distance (b : Board) (p : Tetromino) : Nat :=
  Nat.find (drop_stops b p)

/-- Models `Board.hard_drop(piece)`. -/
def Board.hard_drop (b : Board) (p : Tetromino) : Tetromino :=
  p.moved 0 (b.drop_distance p)

/-- One `next_kind()` call of `SevenBagGenerator`: if the bag is empty it
is refilled with the shuffled full set (`shuffled`, the output of
`random.shuffle` on `ALL_TETROMINO_TYPES`, abstracting the random source),
then the LAST element is popped (`list.pop()`).  `none` only if even the
refill list is empty, where Python's `pop` would raise. -/
def nextKind (shuffled : List Kind) (bag : List Kind) : Option (Kind × List Kind) :=
  let b := if bag.isEmpty then shuffled else bag
  match b.reverse with
  | [] => none
  | k :: r => some (k, r.reverse)

/-- Models `n` successive `next_kind()` draws (all refills within the window use
the same shuffled list, which is exact for a window of at most one refill):
the list of drawn kinds and the final bag. -/
def drawSeq (shuffled : List Kind) : List Kind → Nat → Option (List Kind × List Kind)
  | bag, 0 => some ([], bag)
  | bag, n + 1 =>
    match nextKind shuffled bag with
    | none => none
    | some (k, bag2) =>
      match drawSeq shuffled bag2 n with
      | none => none
      | some (ks, bagF) => some (k :: ks, bagF)

/-- Models `GameStats` dataclass (`score`, `level`, `total_lines` are nonnegative
Python ints). -/
structure GameStats where
  score : Nat
  level : Nat
  total_lines : Nat
deriving DecidableEq

/-- The exceptions the engine raises: `GameOver`, `ModeComplete`, the
`ValueError` of `Board.lock_piece`, and a failed `assert`. -/
inductive Outcome where
  | gameOver (msg : String)
  | modeComplete (msg : String)
  | valueError (msg : String)
  | assertFail
deriving DecidableEq

/-- The session state of the `Game` class that the verified operations
touch.  The piece iterator `self._piece_iter` (the seven-bag generator) is
abstracted as the infinite kind sequence `stream` with cursor `streamPos`;
the wall-clock gravity fields (floats) are outside the model, and the
lock-delay timestamp `_lock_timer_started` is kept as its armed flag. -/
structure Game where
  board : Board
  stats : GameStats
  current : Option Tetromino
  nextP : Option Tetromino
  heldKind : Option Kind
  holdUsed : Bool
  lockTimerArmed : Bool
  sprintTarget : Option Nat
  stream : Nat → Kind
  streamPos : Nat

/-- Models `next(self._piece_iter)`: `SevenBagGenerator.pieces` yields
`spawn_tetromino(self.next_kind(), board_width)`. -/
def drawPiece (g : Game) : Tetromino × Game :=
  (spawn_tetromino (g.stream g.streamPos) (g.board.width : Int),
    { g with streamPos := g.streamPos + 1 })

/-- Models `Game._spawn_next_piece`: promote the next piece to current, draw a new
next piece, reset the hold-used flag, and raise `GameOver` when the spawned
piece does not fit. -/
def spawnNextPiece (g : Game) : Game × Option Outcome :=
  let np_g :=
    match g.nextP with
    | none => drawPiece g
    | some p => (p, g)
  let np := np_g.1
  let g2p := drawPiece np_g.2
  let g3 := { g2p.2 with current := some np, nextP := some g2p.1, holdUsed := false }
  if g3.board.can_place np then (g3, none)
  else (g3, some (Outcome.gameOver ("No room to spawn the next piece.")))

/-- Models `Game._lock_current_piece`: lock the current piece, clear lines, and on
a nonzero clear update lines, level and score (in that order) and possibly
raise `ModeComplete`; finally disarm the lock timer and clear the current
piece.  (`_update_gravity_interval` only touches the unmodelled float
gravity fields.)  As in Python, a raise leaves the already-performed state
updates in place, and the `ValueError` of `lock_piece` propagates. -/
def lockCurrentPiece (g : Game) : Game × Option Outcome :=
  match g.current with
  | none => (g, some Outcome.assertFail)
  | some cur =>
    match g.board.lock_piece cur with
    | (b1, some m) => ({ g with board := b1 }, some (Outcome.valueError m))
    | (b1, none) =>
      let cr := b1.clear_completed_lines
      if cr.2.cleared ≠ 0 then
        let total := g.stats.total_lines + cr.2.cleared
        let level := 1 + total / 10
        let score := g.stats.score + cr.2.score_gain * level
        let g2 : Game := { g with board := cr.1,
                                  stats := { score := score, level := level, total_lines := total } }
        match g.sprintTarget with
        | some target =>
          if target ≤ total then (g2, some (Outcome.modeComplete ("Sprint target reached.")))
          else ({ g2 with lockTimerArmed := false, current := none }, none)
        | none => ({ g2 with lockTimerArmed := false, current := none }, none)
      else ({ g with board := cr.1, lockTimerArmed := false, current := none }, none)

/-- The wall-kick offsets tried by `Game._rotate_piece`, in order. -/
def kickOffsets : List Int := [0, -1, 1, -2, 2]

/-- Models `Game._rotate_piece(clockwise)`: rotate, then commit the first kicked
candidate that fits (disarming the lock timer); otherwise leave everything
unchanged. -/
def rotatePiece (g : Game) (clockwise : Bool) : Game × Option Outcome :=
  match g.current with
  | none => (g, some Outcome.assertFail)
  | some cur =>
    let rot := cur.rotated clockwise
    match kickOffsets.find? (fun k => g.board.can_place (rot.moved k 0)) with
    | some k => ({ g with current := some (rot.moved k 0), lockTimerArmed := false }, none)
    | none => (g, none)

/-- Models `Game._hold_piece`: no-op when hold was already used since the last
spawn; first-ever hold stashes the kind and respawns; later holds swap with
the held kind, raising `GameOver` when the swapped-in spawn does not fit. -/
def holdPiece (g : Game) : Game × Option Outcome :=
  match g.current with
  | none => (g, some Outcome.assertFail)
  | some cur =>
    if g.holdUsed then (g, none)
    else
      match g.heldKind with
      | none =>
        spawnNextPiece { g with heldKind := some cur.kind, current := none, holdUsed := true }
      | some hk =>
        let replacement := spawn_tetromino hk (g.board.width : Int)
        if !(g.board.can_place replacement) then
          (g, some (Outcome.gameOver ("Cannot place held piece.")))
        else
          ({ g with heldKind := some cur.kind, current := some replacement,
                    lockTimerArmed := false, holdUsed := true }, none)

/-- Popping from a bag with a known last element. -/
theorem nextKind_snoc (s ys : List Kind) (k : Kind) :
    nextKind s (ys ++ [k]) = some (k, ys) := by
  simp [nextKind]

/-- Drawing exactly `bag.length` kinds from a nonempty bag consumes the bag
in reverse list order (Python `pop` takes the last element) and leaves it
empty, without ever consulting the refill list. -/
theorem drawSeq_full : ∀ (s bag : List Kind), bag ≠ [] →
    drawSeq s bag bag.length = some (bag.reverse, []) := by
  intro s bag
  induction bag using List.reverseRecOn with
  | nil => intro h; exact absurd rfl h
  | append_singleton ys k ih =>
    intro _
    rw [show (ys ++ [k]).length = ys.length + 1 by simp]
    rw [drawSeq, nextKind_snoc]
    rcases eq_or_ne ys [] with rfl | hys
    · simp [drawSeq]
    · simp [ih hys]

/-- A draw from an empty bag behaves like a draw from the freshly refilled
(shuffled) bag. -/
theorem drawSeq_refill_step (s : List Kind) (n : Nat) :
    drawSeq s [] (n + 1) = drawSeq s s (n + 1) := by
  rw [drawSeq, drawSeq]
  congr 1
  simp [nextKind]

/-- C4: for every shuffle the random source can produce (any permutation
of the seven kinds), the 7 consecutive draws beginning at a refill boundary
(empty bag before the first draw) are exactly the shuffled list in reverse
pop order — a deterministic function of the one shuffle, not re-randomized
per draw — hence a permutation of all seven kinds, and the bag is empty
again afterwards. -/
theorem seven_bag_permutation (s : List Kind) (hperm : s.Perm ALL_TETROMINO_TYPES) :
    drawSeq s [] 7 = some (s.reverse, []) ∧ s.reverse.Perm ALL_TETROMINO_TYPES := by
  have hlen : s.length = 7 := by
    have := hperm.length_eq
    simpa [ALL_TETROMINO_TYPES] using this
  have hne : s ≠ [] := by
    intro h
    rw [h] at hlen
    simp at hlen
  refine ⟨?_, (s.reverse_perm).trans hperm⟩
  obtain ⟨m, hm⟩ : ∃ m, s.length = m + 1 :=
    Nat.exists_eq_succ_of_ne_zero (by simpa using hne)
  rw [show (7 : Nat) = s.length from hlen.symm, hm, drawSeq_refill_step, ← hm]
  exact drawSeq_full s s hne

/-- Witness for C4 at the identity shuffle. -/
theorem seven_bag_permutation_witness :
    drawSeq ALL_TETROMINO_TYPES [] 7 = some (ALL_TETROMINO_TYPES.reverse, []) ∧
      ALL_TETROMINO_TYPES.reverse.Perm ALL_TETROMINO_TYPES :=
  seven_bag_permutation ALL_TETROMINO_TYPES (List.Perm.refl _)

/-- C1: the hold-used guard.  Once hold has been used since the last spawn
(`holdUsed = true`), a hold action returns the session completely
unchanged and raises nothing; and after a successful swap-path hold (a held
kind exists, so no fresh spawn resets the flag), a second hold in the same
spawn is exactly such a no-op. -/
theorem hold_used_guard (g : Game) (p : Tetromino) (hc : g.current = some p) :
    (g.holdUsed = true → holdPiece g = (g, none)) ∧
    (g.holdUsed = false → ∀ hk, g.heldKind = some hk →
      (holdPiece g).2 = none →
      holdPiece (holdPiece g).1 = ((holdPiece g).1, (none : Option Outcome))) := by
  constructor
  · intro hu
    simp [holdPiece, hc, hu]
  · intro hu hk hh hnone
    cases hp : g.board.can_place (spawn_tetromino hk (g.board.width : Int)) with
    | false => simp [holdPiece, hc, hu, hh, hp] at hnone
    | true => simp [holdPiece, hc, hu, hh, hp]

/-- A default-sized empty board (12 wide, 24 visible rows, 2 hidden). -/
def emptyBoard12 : Board := Board.init 12 24 2

/-- A session in which hold has already been used since the last spawn. -/
def holdWGame : Game :=
  { board := emptyBoard12, stats := { score := 0, level := 1, total_lines := 0 },
    current := some { kind := Kind.T, rotation := 0, x := 4, y := 0 },
    nextP := none, heldKind := some Kind.I, holdUsed := true, lockTimerArmed := false,
    sprintTarget := none, stream := fun _ => Kind.I, streamPos := 0 }

/-- Witness for C1: at `holdWGame` the guard fires and hold is a no-op. -/
theorem hold_used_guard_witness : holdPiece holdWGame = (holdWGame, none) :=
  (hold_used_guard holdWGame { kind := Kind.T, rotation := 0, x := 4, y := 0 } rfl).1 rfl

/-- Models `find?` returns the first element satisfying the predicate. -/
theorem find?_eq_get_of_first {α : Type} (p : α → Bool) (l : List α) (i : Nat)
    (hi : i < l.length) (h1 : p (l.get ⟨i, hi⟩) = true)
    (h2 : ∀ j, (hj : j < i) → p (l.get ⟨j, by omega⟩) = false) :
    l.find? p = some (l.get ⟨i, hi⟩) := by
  induction l generalizing i with
  | nil => simp at hi
  | cons a t ih =>
    cases i with
    | zero => exact List.find?_cons_of_pos _ h1
    | succ n =>
      have ha : p a = false := h2 0 (Nat.succ_pos n)
      rw [List.find?_cons_of_neg _ (by simp [ha])]
      exact ih n (by simpa using hi) h1 (fun j hj => h2 (j + 1) (by omega))

/-- C6: a rotate action first advances the rotation index by plus or minus
one modulo the kind's rotation-state count, origin and kind unchanged; it
then tries the horizontal kicks 0, -1, 1, -2, 2 in that order, committing
the first placeable candidate; when no candidate is placeable the whole
session (in particular the piece) is left unchanged. -/
theorem rotate_kick_spec (g : Game) (cur : Tetromino) (cw : Bool) (hc : g.current = some cur) :
    ((((cur.rotated cw).rotation.val : Int) =
        ((cur.rotation.val : Int) + (if cw then 1 else -1)) %
          ((shapesList cur.kind).length : Int)) ∧
      (cur.rotated cw).x = cur.x ∧ (cur.rotated cw).y = cur.y ∧
      (cur.rotated cw).kind = cur.kind) ∧
    ((∀ k ∈ kickOffsets, g.board.can_place ((cur.rotated cw).moved k 0) = false) →
      rotatePiece g cw = (g, none)) ∧
    (∀ i, (hi : i < kickOffsets.length) →
      g.board.can_place ((cur.rotated cw).moved (kickOffsets.get ⟨i, hi⟩) 0) = true →
      (∀ j, (hj : j < i) →
        g.board.can_place ((cur.rotated cw).moved (kickOffsets.get ⟨j, by omega⟩) 0) = false) →
      (rotatePiece g cw).1.current = some ((cur.rotated cw).moved (kickOffsets.get ⟨i, hi⟩) 0) ∧
        (rotatePiece g cw).2 = none) := by
  refine ⟨⟨?_, rfl, rfl, rfl⟩, ?_, ?_⟩
  · rw [rotationCount]
    have hnn : (0 : Int) ≤ ((cur.rotation.val : Int) + (if cw then 1 else -1)) % 4 :=
      Int.emod_nonneg _ (by norm_num)
    simp only [Tetromino.rotated, rotIndexStep]
    rw [Int.toNat_of_nonneg hnn]
    norm_num
  · intro hall
    have hf : kickOffsets.find? (fun k => g.board.can_place ((cur.rotated cw).moved k 0)) = none :=
      List.find?_eq_none.mpr (fun x hx => by simp [hall x hx])
    simp [rotatePiece, hc, hf]
  · intro i hi htrue hprev
    have hf := find?_eq_get_of_first
      (fun k => g.board.can_place ((cur.rotated cw).moved k 0)) kickOffsets i hi htrue hprev
    simp [rotatePiece, hc, hf]

/-- A 2-by-2 board with every cell occupied. -/
def fullBoard2 : Board :=
  { width := 2, visibleHeight := 2, hiddenRows := 0,
    grid := [[some TETROMINO_GLYPH, some TETROMINO_GLYPH],
             [some TETROMINO_GLYPH, some TETROMINO_GLYPH]] }

/-- A session whose O piece is jammed on a full board. -/
def jamGame : Game :=
  { board := fullBoard2, stats := { score := 0, level := 1, total_lines := 0 },
    current := some { kind := Kind.O, rotation := 0, x := 0, y := 0 },
    nextP := none, heldKind := none, holdUsed := false, lockTimerArmed := false,
    sprintTarget := none, stream := fun _ => Kind.I, streamPos := 0 }

/-- Witness for C6: with every kick candidate blocked, rotation leaves the
session unchanged. -/
theorem rotate_kick_spec_witness : rotatePiece jamGame true = (jamGame, none) :=
  (rotate_kick_spec jamGame { kind := Kind.O, rotation := 0, x := 0, y := 0 } true rfl).2.1
    (by decide)

/-- C10: `drop_distance` terminates on every board and piece, placeable or
not: the loop always reaches a failing `can_place` (the returned distance
is the stopping point), and the returned distance never exceeds
`total_height`. -/
theorem drop_distance_bound (b : Board) (p : Tetromino) :
    b.drop_distance p ≤ b.totalHeight ∧
      b.can_place (p.moved 0 ((b.drop_distance p : Int) + 1)) = false := by
  have hspec := Nat.find_spec (drop_stops b p)
  rw [Bool.not_eq_true] at hspec
  refine ⟨?_, hspec⟩
  rcases Nat.eq_zero_or_pos (b.drop_distance p) with h0 | hpos
  · omega
  · obtain ⟨m, hm⟩ := Nat.exists_eq_succ_of_ne_zero (Nat.pos_iff_ne_zero.mp hpos)
    have h1 : b.can_place (p.moved 0 (((0 : Nat) : Int) + 1)) = true := by
      have := Nat.find_min (drop_stops b p) hpos
      simpa using this
    have hd : b.can_place (p.moved 0 ((m : Int) + 1)) = true := by
      have := Nat.find_min (drop_stops b p) (show m < b.drop_distance p by omega)
      simpa using this
    obtain ⟨o, ho⟩ := List.exists_mem_of_ne_nil _ (offs_ne_nil p.kind p.rotation)
    rw [Board.can_place, List.all_eq_true] at h1 hd
    have hm1 := h1 _ (List.mem_map.mpr ⟨o, ho, rfl⟩)
    have hmd := hd _ (List.mem_map.mpr ⟨o, ho, rfl⟩)
    simp only [Board.is_inside, Tetromino.moved, Bool.and_eq_true, decide_eq_true_eq]
      at hm1 hmd
    have e1 := hm1.1.1.2
    have e2 := hmd.1.2
    rw [hm]
    omega

/-- C7 (amended with the placeability premise): for a placeable piece, the
drop distance is the maximal number of downward unit steps through
placeable positions — every intermediate position down to the landing spot
is placeable, one further step is not — and `hard_drop` moves the piece by
exactly that distance. -/
theorem drop_distance_spec (b : Board) (p : Tetromino) (hp : b.can_place p = true) :
    (∀ e : Nat, e ≤ b.drop_distance p → b.can_place (p.moved 0 (e : Int)) = true) ∧
    b.can_place (p.moved 0 ((b.drop_distance p : Int) + 1)) = false ∧
    b.hard_drop p = p.moved 0 (b.drop_distance p) := by
  refine ⟨?_, ?_, rfl⟩
  · intro e he
    cases e with
    | zero =>
      have hpp : p.moved 0 (((0 : Nat) : Int)) = p := by
        simp [Tetromino.moved]
      rw [hpp]
      exact hp
    | succ n =>
      have hlt := Nat.find_min (drop_stops b p) (show n < b.drop_distance p by omega)
      simp only [not_not] at hlt
      have hcast : (((n + 1 : Nat)) : Int) = (n : Int) + 1 := by push_cast; ring
      rw [hcast]
      exact hlt
  · have hsp := Nat.find_spec (drop_stops b p)
    rw [Bool.not_eq_true] at hsp
    exact hsp

/-- A piece placed entirely below the grid: the drop loop stops at once. -/
def dropCexPiece : Tetromino := { kind := Kind.I, rotation := 0, x := 0, y := 30 }

/-- Counterexample to C7 as stated: `drop_distance` is 0 here, yet the
piece moved down by that distance (the piece itself) is NOT placeable, so
"the piece moved down by drop_distance(P) satisfies can_place" fails
without the placeability premise. -/
theorem drop_distance_counterexample :
    emptyBoard12.drop_distance dropCexPiece = 0 ∧
      emptyBoard12.can_place
        (dropCexPiece.moved 0 ((emptyBoard12.drop_distance dropCexPiece : Int))) = false := by
  have h0 : emptyBoard12.drop_distance dropCexPiece = 0 := by
    unfold Board.drop_distance
    rw [Nat.find_eq_zero]
    decide
  refine ⟨h0, ?_⟩
  rw [h0]
  decide

/-- An I piece placeable on the empty board. -/
def dropWPiece : Tetromino := { kind := Kind.I, rotation := 0, x := 4, y := 0 }

/-- Witness for C7 (amended): a placeable piece lands placeably, one more
step fails, and hard drop moves by exactly the drop distance. -/
theorem drop_distance_spec_witness :
    emptyBoard12.can_place dropWPiece = true ∧
      emptyBoard12.can_place
        (dropWPiece.moved 0 ((emptyBoard12.drop_distance dropWPiece : Int) + 1)) = false ∧
      emptyBoard12.hard_drop dropWPiece =
        dropWPiece.moved 0 (emptyBoard12.drop_distance dropWPiece) := by
  have h := drop_distance_spec emptyBoard12 dropWPiece (by decide)
  exact ⟨by decide, h.2.1, h.2.2⟩

/-- The x coordinates occupied by a piece. -/
def cellsXs (p : Tetromino) : List Int := p.cells.map Prod.fst

/-- C5 (amended: the asymmetric remainder biases the piece to the LEFT,
with the spare column of space on the right): `spawn_tetromino` returns
rotation index 0, the topmost buffer row `y = 0`, a leftmost occupied
column at `(W - pw) / 2` (floor division on the rotation-0 bounding-box
width `pw`), and a right margin exceeding the left margin by exactly
`(W - pw) % 2`. -/
theorem spawn_centering (k : Kind) (W : Int) :
    (spawn_tetromino k W).rotation = 0 ∧ (spawn_tetromino k W).y = 0 ∧
    listMinD (cellsXs (spawn_tetromino k W)) =
      (W - (listMaxD (((shapesList k).getD 0 []).map Prod.fst) -
            listMinD (((shapesList k).getD 0 []).map Prod.fst) + 1)) / 2 ∧
    W - 1 - listMaxD (cellsXs (spawn_tetromino k W)) =
      listMinD (cellsXs (spawn_tetromino k W)) +
        (W - (listMaxD (((shapesList k).getD 0 []).map Prod.fst) -
              listMinD (((shapesList k).getD 0 []).map Prod.fst) + 1)) % 2 := by
  refine ⟨rfl, rfl, ?_, ?_⟩ <;>
    cases k <;>
      simp only [spawn_tetromino, cellsXs, Tetromino.cells, offs, shapesList, listMinD,
        listMaxD, List.map, List.foldl, List.getD] <;>
      omega

/-- Counterexample to C5 as stated: spawning a T piece on the default
12-wide board leaves 4 columns of space on the left and 5 on the right —
the asymmetric remainder biases the piece to the LEFT, not to the right. -/
theorem spawn_bias_counterexample :
    listMinD (cellsXs (spawn_tetromino Kind.T 12)) = 4 ∧
      12 - 1 - listMaxD (cellsXs (spawn_tetromino Kind.T 12)) = 5 ∧
      ¬(12 - 1 - listMaxD (cellsXs (spawn_tetromino Kind.T 12)) ≤
          listMinD (cellsXs (spawn_tetromino Kind.T 12))) := by
  decide

/-- Counting a predicate and its negation covers the whole list. -/
theorem countP_split {α : Type} (p : α → Bool) (l : List α) :
    l.countP p + l.countP (fun a => !p a) = l.length := by
  induction l with
  | nil => simp
  | cons a t ih =>
    by_cases h : p a = true <;>
      simp [List.countP_cons, h] <;>
      omega

/-- Python's `lst[-n:]` is the identity on a list of length `n`. -/
theorem pySliceLast_self (n : Nat) (l : List (List Cell)) (h : l.length = n) :
    pySliceLast n l = l := by
  unfold pySliceLast
  rcases eq_or_ne n 0 with rfl | hn
  · simp
  · simp [if_neg hn, h]

/-- C3: `clear_completed_lines` removes exactly the full rows (all cells
occupied), all at once, keeps the remaining rows in relative order below
exactly as many fresh empty rows inserted at the top, and preserves the
grid shape of `total_height` rows of width `W`. -/
theorem clear_lines_spec (b : Board) (hlen : b.grid.length = b.totalHeight)
    (hw : ∀ r ∈ b.grid, r.length = b.width) :
    (b.clear_completed_lines.1.grid =
      List.replicate b.clear_completed_lines.2.cleared (emptyRow b.width) ++
        b.grid.filter (fun row => !line_full row)) ∧
    b.clear_completed_lines.2.cleared = b.grid.countP (fun row => line_full row) ∧
    b.clear_completed_lines.1.grid.length = b.totalHeight ∧
    (∀ r ∈ b.clear_completed_lines.1.grid, r.length = b.width) ∧
    b.clear_completed_lines.1.width = b.width ∧
    b.clear_completed_lines.1.totalHeight = b.totalHeight := by
  have hnew : (List.replicate (b.grid.countP (fun row => line_full row)) (emptyRow b.width) ++
      b.grid.filter (fun row => !line_full row)).length = b.totalHeight := by
    rw [List.length_append, List.length_replicate, ← List.countP_eq_length_filter, ← hlen]
    exact countP_split _ _
  have hgrid : b.clear_completed_lines.1.grid =
      List.replicate (b.grid.countP (fun row => line_full row)) (emptyRow b.width) ++
        b.grid.filter (fun row => !line_full row) := by
    show pySliceLast b.totalHeight _ = _
    exact pySliceLast_self _ _ hnew
  refine ⟨hgrid, rfl, ?_, ?_, rfl, rfl⟩
  · rw [hgrid]
    exact hnew
  · rw [hgrid]
    intro r hr
    rcases List.mem_append.mp hr with hrep | hfil
    · rw [List.eq_of_mem_replicate hrep]
      exact List.length_replicate _ _
    · exact hw r (List.mem_of_mem_filter hfil)

/-- A 2-wide board with three rows, the middle one full. -/
def clearWBoard : Board :=
  { width := 2, visibleHeight := 2, hiddenRows := 1,
    grid := [[none, none],
             [some TETROMINO_GLYPH, some TETROMINO_GLYPH],
             [none, some TETROMINO_GLYPH]] }

/-- Witness for C3 on `clearWBoard`. -/
theorem clear_lines_spec_witness :
    (clearWBoard.clear_completed_lines.1.grid =
      List.replicate clearWBoard.clear_completed_lines.2.cleared (emptyRow clearWBoard.width) ++
        clearWBoard.grid.filter (fun row => !line_full row)) ∧
      clearWBoard.clear_completed_lines.2.cleared =
        clearWBoard.grid.countP (fun row => line_full row) ∧
      clearWBoard.clear_completed_lines.1.grid.length = clearWBoard.totalHeight := by
  have h := clear_lines_spec clearWBoard (by decide) (by decide)
  exact ⟨h.1, h.2.1, h.2.2.1⟩

/-- The grid-shape invariant of the `Board` class: exactly `total_height`
rows of width `W`. -/
def Board.WF (b : Board) : Prop :=
  b.grid.length = b.totalHeight ∧ ∀ r ∈ b.grid, r.length = b.width

/-- Writing a cell does not move the board bounds. -/
theorem writeCell_is_inside (b : Board) (x y : Int) (g : String) (a c : Int) :
    (b.writeCell x y g).is_inside a c = b.is_inside a c := rfl

/-- Reading back the index just set. -/
theorem getD_set_self {α : Type} (l : List α) (i : Nat) (a d : α) (h : i < l.length) :
    (l.set i a).getD i d = a := by
  rw [List.getD_eq_getElem _ _ (by rw [List.length_set]; exact h), List.getElem_set_self _]

/-- Reading any other index after a set. -/
theorem getD_set_ne {α : Type} (l : List α) (i j : Nat) (a d : α) (h : i ≠ j) :
    (l.set i a).getD j d = l.getD j d := by
  rw [List.getD_eq_getElem?_getD, List.getElem?_set_ne h, ← List.getD_eq_getElem?_getD]

/-- Writing an in-bounds cell preserves the grid shape. -/
theorem writeCell_WF (b : Board) (x y : Int) (g : String)
    (hin : b.is_inside x y = true) (hwf : b.WF) : (b.writeCell x y g).WF := by
  obtain ⟨h1, h2⟩ := hwf
  simp only [Board.is_inside, Bool.and_eq_true, decide_eq_true_eq] at hin
  constructor
  · show (b.grid.set y.toNat _).length = _
    rw [List.length_set]
    exact h1
  · intro r hr
    rcases List.mem_or_eq_of_mem_set hr with hmem | rfl
    · exact h2 r hmem
    · rw [List.length_set]
      have hy : y.toNat < b.grid.length := by
        rw [h1]
        omega
      rw [List.getD_eq_getElem _ _ hy]
      exact h2 _ (List.getElem_mem hy)

/-- Writing an in-bounds cell makes `cell` read back the glyph there. -/
theorem cell_writeCell_self (b : Board) (x y : Int) (g : String)
    (hin : b.is_inside x y = true) (hwf : b.WF) :
    (b.writeCell x y g).cell x y = some g := by
  have hin2 := hin
  simp only [Board.is_inside, Bool.and_eq_true, decide_eq_true_eq] at hin2
  have hy : y.toNat < b.grid.length := by
    rw [hwf.1]
    omega
  have hrowlen : (b.grid.getD y.toNat []).length = b.width := by
    rw [List.getD_eq_getElem _ _ hy]
    exact hwf.2 _ (List.getElem_mem hy)
  have hx : x.toNat < (b.grid.getD y.toNat []).length := by
    rw [hrowlen]
    omega
  have hgrid : (b.writeCell x y g).grid =
      b.grid.set y.toNat ((b.grid.getD y.toNat []).set x.toNat (some g)) := rfl
  simp only [Board.cell, writeCell_is_inside, hin, if_true]
  rw [hgrid, getD_set_self _ _ _ _ hy, getD_set_self _ _ _ _ hx]

/-- Writing one cell leaves every other `cell` read unchanged. -/
theorem cell_writeCell_other (b : Board) (x y a c : Int) (g : String)
    (hin : b.is_inside x y = true) (hne : (a, c) ≠ (x, y)) :
    (b.writeCell x y g).cell a c = b.cell a c := by
  have hgrid : (b.writeCell x y g).grid =
      b.grid.set y.toNat ((b.grid.getD y.toNat []).set x.toNat (some g)) := rfl
  by_cases hac : b.is_inside a c = true
  · have hin2 := hin
    have hac2 := hac
    simp only [Board.is_inside, Bool.and_eq_true, decide_eq_true_eq] at hin2 hac2
    simp only [Board.cell, writeCell_is_inside, hac, if_true]
    rw [hgrid]
    by_cases hyc : c = y
    · subst hyc
      have hax : a ≠ x := fun h => hne (by rw [h])
      by_cases hy : c.toNat < b.grid.length
      · have haxn : x.toNat ≠ a.toNat := by omega
        rw [getD_set_self _ _ _ _ hy, getD_set_ne _ _ _ _ _ haxn]
      · rw [List.set_eq_of_length_le (by omega)]
    · have hcyn : y.toNat ≠ c.toNat := by omega
      rw [getD_set_ne _ _ _ _ _ hcyn]
  · simp [Board.cell, writeCell_is_inside, hac]

/-- The effect of the `lock_piece` write loop on an all-in-bounds cell
list: no error, grid shape preserved, the listed cells read back the
glyph, and every other cell is untouched. -/
theorem lockCellsGo_spec (g : String) :
    ∀ (cs : List (Int × Int)) (b : Board), b.WF →
      (∀ c ∈ cs, b.is_inside c.1 c.2 = true) →
      (lockCellsGo g b cs).2 = none ∧
      (lockCellsGo g b cs).1.WF ∧
      (lockCellsGo g b cs).1.width = b.width ∧
      (lockCellsGo g b cs).1.visibleHeight = b.visibleHeight ∧
      (lockCellsGo g b cs).1.hiddenRows = b.hiddenRows ∧
      (∀ x y, (x, y) ∈ cs → (lockCellsGo g b cs).1.cell x y = some g) ∧
      (∀ x y, (x, y) ∉ cs → (lockCellsGo g b cs).1.cell x y = b.cell x y) := by
  intro cs
  induction cs with
  | nil =>
    intro b hwf _
    exact ⟨rfl, hwf, rfl, rfl, rfl, by simp, fun x y _ => rfl⟩
  | cons c rest ih =>
    intro b hwf hin
    have hc := hin c (List.mem_cons_self c rest)
    have hrest : ∀ d ∈ rest, (b.writeCell c.1 c.2 g).is_inside d.1 d.2 = true := by
      intro d hd
      rw [writeCell_is_inside]
      exact hin d (List.mem_cons_of_mem c hd)
    have hwf2 := writeCell_WF b c.1 c.2 g hc hwf
    have hrec := ih (b.writeCell c.1 c.2 g) hwf2 hrest
    have hstep : lockCellsGo g b (c :: rest) = lockCellsGo g (b.writeCell c.1 c.2 g) rest := by
      rw [lockCellsGo, if_pos hc]
    rw [hstep]
    refine ⟨hrec.1, hrec.2.1, hrec.2.2.1, hrec.2.2.2.1, hrec.2.2.2.2.1, ?_, ?_⟩
    · intro x y hxy
      rcases List.mem_cons.mp hxy with heq | hmem
      · by_cases hmem2 : (x, y) ∈ rest
        · exact hrec.2.2.2.2.2.1 x y hmem2
        · rw [hrec.2.2.2.2.2.2 x y hmem2]
          have hcxy : c = (x, y) := heq.symm
          subst hcxy
          exact cell_writeCell_self b x y g hc hwf
      · exact hrec.2.2.2.2.2.1 x y hmem
    · intro x y hxy
      have hxy1 : (x, y) ≠ c := fun h => hxy (h ▸ List.mem_cons_self c rest)
      have hxy2 : (x, y) ∉ rest := fun h => hxy (List.mem_cons_of_mem c h)
      rw [hrec.2.2.2.2.2.2 x y hxy2]
      exact cell_writeCell_other b c.1 c.2 x y g hc hxy1

/-- C9: locking a fully in-bounds piece succeeds, writes the glyph to
exactly the piece's cells (overwriting whatever was there) and leaves every
other cell and the grid dimensions unchanged. -/
theorem lock_piece_frame (b : Board) (p : Tetromino) (glyph : String) (hwf : b.WF)
    (hin : ∀ c ∈ p.cells, b.is_inside c.1 c.2 = true) :
    (b.lock_piece p glyph).2 = none ∧
    (b.lock_piece p glyph).1.grid.length = b.grid.length ∧
    (∀ r ∈ (b.lock_piece p glyph).1.grid, r.length = b.width) ∧
    (∀ x y, (x, y) ∈ p.cells → (b.lock_piece p glyph).1.cell x y = some glyph) ∧
    (∀ x y, (x, y) ∉ p.cells → (b.lock_piece p glyph).1.cell x y = b.cell x y) := by
  unfold Board.lock_piece
  have h := lockCellsGo_spec glyph p.cells b hwf hin
  refine ⟨h.1, ?_, ?_, h.2.2.2.2.2.1, h.2.2.2.2.2.2⟩
  · rw [h.2.1.1, hwf.1]
    show (lockCellsGo glyph b p.cells).1.visibleHeight +
      (lockCellsGo glyph b p.cells).1.hiddenRows = _
    rw [h.2.2.2.1, h.2.2.2.2.1]
    rfl
  · intro r hr
    rw [← h.2.2.1]
    exact h.2.1.2 r hr

/-- Witness for C9: locking an O piece on the small board writes its four
cells and leaves a distinct occupied cell as it was. -/
theorem lock_piece_frame_witness :
    (clearWBoard.lock_piece { kind := Kind.O, rotation := 0, x := 0, y := 0 }
      TETROMINO_GLYPH).2 = none ∧
    (clearWBoard.lock_piece { kind := Kind.O, rotation := 0, x := 0, y := 0 }
      TETROMINO_GLYPH).1.cell 0 0 = some TETROMINO_GLYPH ∧
    (clearWBoard.lock_piece { kind := Kind.O, rotation := 0, x := 0, y := 0 }
      TETROMINO_GLYPH).1.cell 1 2 = clearWBoard.cell 1 2 := by
  have h := lock_piece_frame clearWBoard { kind := Kind.O, rotation := 0, x := 0, y := 0 }
    TETROMINO_GLYPH (by constructor <;> decide) (by decide)
  exact ⟨h.1, h.2.2.2.1 0 0 (by decide), h.2.2.2.2 1 2 (by decide)⟩

/-- C8: `lock_piece` raises the `ValueError` exactly when some cell of the
piece is out of bounds (the "not actually placeable" situation the guard
detects); with every cell in bounds it returns without error.  (The guard
checks bounds only: an in-bounds overlap is overwritten, as the claim's
second clause states.) -/
theorem lock_piece_raises (b : Board) (p : Tetromino) (glyph : String) :
    ((∃ c ∈ p.cells, b.is_inside c.1 c.2 = false) →
      (b.lock_piece p glyph).2 = some ("Cannot lock piece outside board bounds.")) ∧
    ((∀ c ∈ p.cells, b.is_inside c.1 c.2 = true) → (b.lock_piece p glyph).2 = none) := by
  constructor
  · show (∃ c ∈ p.cells, _) → (lockCellsGo glyph b p.cells).2 = _
    generalize p.cells = cs
    induction cs generalizing b with
    | nil => rintro ⟨c, hc, -⟩; exact absurd hc (List.not_mem_nil c)
    | cons c rest ih =>
      rintro ⟨d, hd, hdf⟩
      by_cases hc : b.is_inside c.1 c.2 = true
      · rw [lockCellsGo, if_pos hc]
        rcases List.mem_cons.mp hd with rfl | hmem
        · rw [hc] at hdf; cases hdf
        · exact ih _ ⟨d, hmem, by rw [writeCell_is_inside]; exact hdf⟩
      · rw [lockCellsGo, if_neg hc]
  · show (∀ c ∈ p.cells, _) → (lockCellsGo glyph b p.cells).2 = none
    generalize p.cells = cs
    induction cs generalizing b with
    | nil => intro _; rfl
    | cons c rest ih =>
      intro hin
      rw [lockCellsGo, if_pos (hin c (List.mem_cons_self c rest))]
      exact ih _ (fun d hd => by
        rw [writeCell_is_inside]; exact hin d (List.mem_cons_of_mem c hd))

/-- Witness for C8: a piece sticking out below the small board triggers the
error, and an in-bounds piece does not. -/
theorem lock_piece_raises_witness :
    (clearWBoard.lock_piece { kind := Kind.I, rotation := 0, x := 0, y := 5 }
      TETROMINO_GLYPH).2 = some ("Cannot lock piece outside board bounds.") ∧
    (clearWBoard.lock_piece { kind := Kind.O, rotation := 0, x := 0, y := 1 }
      TETROMINO_GLYPH).2 = none := by
  constructor
  · exact (lock_piece_raises clearWBoard
      { kind := Kind.I, rotation := 0, x := 0, y := 5 } TETROMINO_GLYPH).1
      ⟨(0, 5), by decide, by decide⟩
  · exact (lock_piece_raises clearWBoard
      { kind := Kind.O, rotation := 0, x := 0, y := 1 } TETROMINO_GLYPH).2 (by decide)

/-- The write loop alone never errors on an all-in-bounds cell list (no
grid-shape assumption needed). -/
theorem lockCellsGo_err_none (g : String) :
    ∀ (cs : List (Int × Int)) (b : Board), (∀ c ∈ cs, b.is_inside c.1 c.2 = true) →
      (lockCellsGo g b cs).2 = none := by
  intro cs
  induction cs with
  | nil => intro b _; rfl
  | cons c rest ih =>
    intro b hin
    rw [lockCellsGo, if_pos (hin c (List.mem_cons_self c rest))]
    exact ih _ (fun d hd => by
      rw [writeCell_is_inside]; exact hin d (List.mem_cons_of_mem c hd))

/-- The claimed base-award table: 0 lines score 0, 1 scores 40, 2 scores
100, 3 scores 300, 4 or more score 1200. -/
def scoreTable : Nat → Nat
  | 0 => 0
  | 1 => 40
  | 2 => 100
  | 3 => 300
  | _ + 4 => 1200

/-- The `if`-cascade of `clear_completed_lines` computes `scoreTable` of
the cleared count. -/
theorem clear_score_gain (b : Board) :
    b.clear_completed_lines.2.score_gain = scoreTable b.clear_completed_lines.2.cleared := by
  simp only [Board.clear_completed_lines]
  generalize (b.grid.countP fun row => line_full row) = n
  match n with
  | 0 => rfl
  | 1 => rfl
  | 2 => rfl
  | 3 => rfl
  | n + 4 =>
    rw [if_neg (by omega), if_neg (by omega), if_neg (by omega), if_pos (by omega)]
    rfl

/-- C2: a lock that clears `n ≥ 1` lines adds `n` to `total_lines`, then
recomputes `level = 1 + total_lines / 10` (integer division), and then adds
`scoreTable n * level` with the level taken after the increment; a lock
that clears no lines leaves score, level and total lines unchanged; and the
score gain returned by the board is exactly the table value. -/
theorem lock_scoring (g : Game) (cur : Tetromino) (hc : g.current = some cur)
    (hin : ∀ c ∈ cur.cells, g.board.is_inside c.1 c.2 = true) :
    ((g.board.lock_piece cur).1.clear_completed_lines.2.cleared = 0 →
      (lockCurrentPiece g).1.stats = g.stats) ∧
    (1 ≤ (g.board.lock_piece cur).1.clear_completed_lines.2.cleared →
      (lockCurrentPiece g).1.stats.total_lines =
        g.stats.total_lines + (g.board.lock_piece cur).1.clear_completed_lines.2.cleared ∧
      (lockCurrentPiece g).1.stats.level =
        1 + (g.stats.total_lines +
          (g.board.lock_piece cur).1.clear_completed_lines.2.cleared) / 10 ∧
      (lockCurrentPiece g).1.stats.score =
        g.stats.score +
          scoreTable (g.board.lock_piece cur).1.clear_completed_lines.2.cleared *
            (1 + (g.stats.total_lines +
              (g.board.lock_piece cur).1.clear_completed_lines.2.cleared) / 10)) ∧
    (g.board.lock_piece cur).1.clear_completed_lines.2.score_gain =
      scoreTable (g.board.lock_piece cur).1.clear_completed_lines.2.cleared := by
  have herr : (g.board.lock_piece cur).2 = none :=
    lockCellsGo_err_none TETROMINO_GLYPH cur.cells g.board hin
  rcases hlp : g.board.lock_piece cur with ⟨b1, e⟩
  rw [hlp] at herr
  simp only at herr
  subst herr
  dsimp only
  have hgain := clear_score_gain b1
  refine ⟨?_, ?_, hgain⟩
  · intro h0
    simp only [lockCurrentPiece, hc, hlp, h0]
    simp
  · intro h1
    have hne : b1.clear_completed_lines.2.cleared ≠ 0 := by omega
    simp only [lockCurrentPiece, hc, hlp, if_pos hne, hgain]
    cases g.sprintTarget with
    | none => simp
    | some target =>
      by_cases ht : target ≤ g.stats.total_lines + b1.clear_completed_lines.2.cleared <;>
        simp [ht]

/-- A 4-wide two-row board whose bottom row lacks its right half. -/
def lockWBoard : Board :=
  { width := 4, visibleHeight := 2, hiddenRows := 0,
    grid := [[none, none, none, none],
             [some TETROMINO_GLYPH, some TETROMINO_GLYPH, none, none]] }

/-- Dropping an O piece into the gap completes the bottom row. -/
def lockWGame : Game :=
  { board := lockWBoard, stats := { score := 0, level := 1, total_lines := 0 },
    current := some { kind := Kind.O, rotation := 0, x := 2, y := 0 },
    nextP := none, heldKind := none, holdUsed := false, lockTimerArmed := false,
    sprintTarget := none, stream := fun _ => Kind.I, streamPos := 0 }

/-- Witness for C2: the single-line clear awards 40 times the post-clear
level. -/
theorem lock_scoring_witness :
    (lockCurrentPiece lockWGame).1.stats.total_lines =
      lockWGame.stats.total_lines +
        (lockWGame.board.lock_piece
          { kind := Kind.O, rotation := 0, x := 2, y := 0 }).1.clear_completed_lines.2.cleared ∧
    (lockCurrentPiece lockWGame).1.stats.score =
      lockWGame.stats.score +
        scoreTable (lockWGame.board.lock_piece
          { kind := Kind.O, rotation := 0, x := 2, y := 0 }).1.clear_completed_lines.2.cleared *
          (1 + (lockWGame.stats.total_lines +
            (lockWGame.board.lock_piece
              { kind := Kind.O, rotation := 0, x := 2, y := 0 }).1.clear_completed_lines.2.cleared) / 10) := by
  have h := lock_scoring lockWGame { kind := Kind.O, rotation := 0, x := 2, y := 0 } rfl
    (by decide)
  have h1 := h.2.1 (by decide)
  exact ⟨h1.1, h1.2.2⟩

end Tetrus
